import Mathlib

/-!
Shallow embedding of the employees-table grid controller of this
repository (`fieldValidator.js`, `fieldFormatter.js`, the table
controller and the inline editor): field validation pipeline, default
sort comparator, sorter state machine, header sort-indicator classes,
form submission, and the inline-edit lifecycle.

JS machine numbers are modelled as exact fractions (`Frac`, integer
numerator over a positive power-of-ten denominator, compared with the
rational order); `NaN` is modelled as `none` of `Option Frac`.
Strings are Lean `String`s viewed as their character lists.
-/

/-- Model of JS `String.prototype.trim`: strip leading and trailing
whitespace (restricted to the ASCII whitespace recognised by
`Char.isWhitespace`). -/
def jsTrim (s : String) : String :=
  String.mk (((s.data.dropWhile Char.isWhitespace).reverse.dropWhile
    Char.isWhitespace).reverse)

/-- Characters removed by `replace(/\s|,/g, '')` in `_defaultComparator`. -/
def strippedChar (c : Char) : Bool := c.isWhitespace || c == ','

/-- Model of `normA.replace(/\s|,/g, '')`: drop all whitespace and commas. -/
def stripWsCommas (s : String) : String :=
  String.mk (s.data.filter (fun c => !strippedChar c))

/-- Numeric value of a digit run, most significant first. -/
def digitsToNat (ds : List Char) : Nat :=
  ds.foldl (fun a c => a * 10 + (c.toNat - 48)) 0

/-- A finite JS number as an exact, not necessarily reduced fraction;
every constructor below yields a positive (power-of-ten) denominator,
and the order relations below are the rational ones. -/
structure Frac where
  num : Int
  den : Nat
deriving DecidableEq

/-- A JS integer. -/
def Frac.ofInt (n : Int) : Frac := ⟨n, 1⟩

/-- Rational order on fractions with positive denominators. -/
def Frac.lt (a b : Frac) : Prop := a.num * (b.den : Int) < b.num * (a.den : Int)

/-- Rational order on fractions with positive denominators. -/
def Frac.le (a b : Frac) : Prop := a.num * (b.den : Int) ≤ b.num * (a.den : Int)

instance : LT Frac := ⟨Frac.lt⟩

instance : LE Frac := ⟨Frac.le⟩

instance (a b : Frac) : Decidable (a < b) :=
  inferInstanceAs (Decidable (a.num * (b.den : Int) < b.num * (a.den : Int)))

instance (a b : Frac) : Decidable (a ≤ b) :=
  inferInstanceAs (Decidable (a.num * (b.den : Int) ≤ b.num * (a.den : Int)))

/-- JS subtraction on exact fractions. -/
def Frac.sub (a b : Frac) : Frac :=
  ⟨a.num * (b.den : Int) - b.num * (a.den : Int), a.den * b.den⟩

/-- JS multiplication by an integer (the direction sign). -/
def Frac.mulInt (a : Frac) (k : Int) : Frac := ⟨a.num * k, a.den⟩

/-- Value of a sign, an integer digit run and a fractional digit run:
`±(ip.fp)` with denominator `10 ^ |fp|`. -/
def decOfParts (sign : Bool) (ip fp : List Char) : Frac :=
  let n : Int := (digitsToNat ip * 10 ^ fp.length + digitsToNat fp : Nat)
  ⟨if sign then -n else n, 10 ^ fp.length⟩

/-- Split an optional leading sign character off a character list; the
boolean is `true` for a leading minus. -/
def splitSign (cs : List Char) : Bool × List Char :=
  match cs with
  | [] => (false, [])
  | c :: r =>
    if c = '-' then (true, r)
    else if c = '+' then (false, r)
    else (false, c :: r)

/-- The sign-free part of `parseFloat`: parse a prefix
`digits* ['.' digits*]`, failing when no digit is found. -/
def jpfBody (sign : Bool) (cs : List Char) : Option Frac :=
  let ip := cs.takeWhile Char.isDigit
  let rest := cs.dropWhile Char.isDigit
  match rest with
  | [] => if ip = [] then none else some (decOfParts sign ip [])
  | c :: r2 =>
    if c = '.' then
      let fp := r2.takeWhile Char.isDigit
      if ip = [] ∧ fp = [] then none else some (decOfParts sign ip fp)
    else if ip = [] then none else some (decOfParts sign ip [])

/-- Model of JS `parseFloat` on the character list after leading
whitespace: parse a prefix `[+-]? digits* ['.' digits*]`, failing when
no digit is found; the exponent and special forms are outside the
fragment this repository feeds to it. -/
def jpfAux (cs : List Char) : Option Frac :=
  jpfBody (splitSign cs).1 (splitSign cs).2

/-- Model of JS `parseFloat` on strings; `none` models `NaN`. -/
def jsParseFloat (s : String) : Option Frac :=
  jpfAux (s.data.dropWhile Char.isWhitespace)

/-- Model of the optional fractional part `([.,]\d+)?$` of the
comparator regex, applied to what follows the integer digit run. -/
def matchFrac : List Char → Bool
  | [] => true
  | c :: r => if (c = '.' ∨ c = ',') ∧ r ≠ [] then r.all Char.isDigit else false

/-- Model of `/^-?\d+([.,]\d+)?$/` on a character list. -/
def msdAux (cs : List Char) : Bool :=
  let body := match cs with
    | [] => ([] : List Char)
    | c :: r => if c = '-' then r else c :: r
  let ds := body.takeWhile Char.isDigit
  let rest := body.dropWhile Char.isDigit
  !ds.isEmpty && matchFrac rest

/-- Full match of the signed-decimal regex `/^-?\d+([.,]\d+)?$/`. -/
def matchesSignedDecimal (s : String) : Bool := msdAux s.data

/-- Model of JS `Number()` applied to a string: trim, empty coerces to
`0`, otherwise a full-string signed decimal; `none` models `NaN`.
Restricted to the decimal fragment (no exponent, hex or `Infinity`),
which covers every value this repository feeds to it. -/
def jsNumber (s : String) : Option Frac :=
  let cs := (jsTrim s).data
  if cs = [] then some (Frac.ofInt 0)
  else
    let p := splitSign cs
    let ip := p.2.takeWhile Char.isDigit
    let rest := p.2.dropWhile Char.isDigit
    match rest with
    | [] => if ip = [] then none else some (decOfParts p.1 ip [])
    | c :: r2 =>
      if c = '.' then
        let fp := r2.takeWhile Char.isDigit
        let rest2 := r2.dropWhile Char.isDigit
        if rest2 = [] ∧ (ip ≠ [] ∨ fp ≠ []) then some (decOfParts p.1 ip fp)
        else none
      else none

/-- Code-point lexicographic three-way comparison on character lists. -/
def lexCmp : List Char → List Char → Int
  | [], [] => 0
  | [], _ :: _ => -1
  | _ :: _, [] => 1
  | a :: as, b :: bs =>
    if a.toNat < b.toNat then -1
    else if b.toNat < a.toNat then 1
    else lexCmp as bs

/-- Model of `localeCompare(…, undefined, { sensitivity: 'base' })`:
case-insensitive comparison, modelled as code-point comparison of the
lower-cased strings. -/
def localeCompareBase (a b : String) : Int :=
  lexCmp (a.data.map Char.toLower) (b.data.map Char.toLower)

/-- Model of `EmployeesTable._defaultComparator(a, b, sortType)`. -/
def defaultComparator (a b : String) (sortType : Int) : Frac :=
  let normA := jsTrim a
  let normB := jsTrim b
  if normA = "" ∧ normB = "" then Frac.ofInt 0
  else if normA = "" then Frac.ofInt (-sortType)
  else if normB = "" then Frac.ofInt sortType
  else
    let numA := jsParseFloat (stripWsCommas normA)
    let numB := jsParseFloat (stripWsCommas normB)
    let bothNumeric := numA.isSome && numB.isSome
      && matchesSignedDecimal normA && matchesSignedDecimal normB
    if bothNumeric then
      ((numA.getD (Frac.ofInt 0)).sub (numB.getD (Frac.ofInt 0))).mulInt sortType
    else (Frac.ofInt (localeCompareBase normA normB)).mulInt sortType

/-- Model of the result objects returned by individual rule predicates
(`{ success, message? }`); a missing message is modelled as `""`. -/
structure RuleRes where
  success : Bool
  message : String := ""
deriving DecidableEq

/-- Model of one entry of the `_rules` array of `BaseValidator`: a rule
name and its predicate.  `func = none` models a rule whose `func` is
not a function; a predicate returning `Except.error e` models a
predicate that throws an `Error` with message `e`. -/
structure Rule where
  name : String
  func : Option (String → Except String RuleRes)

/-- Model of `BaseValidationResult`. -/
structure BaseValidationResult where
  success : Bool
  message : String
deriving DecidableEq

/-- One iteration of the `forEach` body of `BaseValidator.validate`,
threading the mutable `success` flag and `messages` array. -/
def validateStep (value : String) (acc : Bool × List String) (rule : Rule) :
    Bool × List String :=
  match rule.func with
  | none => (false, acc.2 ++ ["Validation " ++ rule.name ++ " is not defined"])
  | some f =>
    match f value with
    | Except.ok result =>
      if result.success then acc
      else (false, acc.2 ++ [result.message])
    | Except.error e =>
      (false, acc.2 ++ ["Validation " ++ rule.name ++ " failed: " ++ e])

/-- Model of `BaseValidator.validate`.  `field = none` models an
unbound validator; `field = some v` models a validator bound to a
field whose current value is `v` (a `null` field value collapses to
`""` through `?? ''` before trimming). -/
def validate (field : Option String) (rules : List Rule) : BaseValidationResult :=
  match field with
  | none => ⟨false, "Field not bound"⟩
  | some fieldValue =>
    let value := jsTrim fieldValue
    let acc := rules.foldl (validateStep value) (true, [])
    ⟨acc.1, String.intercalate "; " acc.2⟩

/-- Declarative per-rule outcome, following the specification wording:
a missing predicate is a failure with a diagnostic, a raising
predicate is converted to a failure carrying the error text, otherwise
the predicate result stands.  Used to state what `validate`
aggregates. -/
def specRuleOutcome (value : String) (rule : Rule) : RuleRes :=
  match rule.func with
  | none => ⟨false, "Validation " ++ rule.name ++ " is not defined"⟩
  | some f =>
    match f value with
    | Except.ok r => r
    | Except.error e => ⟨false, "Validation " ++ rule.name ++ " failed: " ++ e⟩

/-- Messages of the failing rules, in rule order (specification side). -/
def specFailMessages (value : String) (rules : List Rule) : List String :=
  rules.filterMap (fun r =>
    let o := specRuleOutcome value r
    if o.success then none else some o.message)

/-- Model of the single rule of `MinStrLenValidator(fieldName, minLenValue)`.
`!value` on a (trimmed) JS string is truthy exactly for `""`. -/
def minStrLenRules (fieldName : String) (minLenValue : Nat) : List Rule :=
  [⟨"minLen", some fun value => Except.ok (
    if value = "" ∨ value.length < minLenValue then
      ⟨false, "Minimum " ++ fieldName ++ " length is " ++ toString minLenValue⟩
    else ⟨true, ""⟩)⟩]

/-- Model of the `min` rule of `NumScopeValidator`: the non-numeric
check runs before the bound check. -/
def numScopeMinRule (fieldName : String) (minValue : Int) : Rule :=
  ⟨"min", some fun value => Except.ok (
    match jsNumber value with
    | none => ⟨false, fieldName ++ " must be a number"⟩
    | some num =>
      if num < Frac.ofInt minValue then
        ⟨false, "Minimum " ++ fieldName ++ " is " ++ toString minValue⟩
      else ⟨true, ""⟩)⟩

/-- Model of the `max` rule of `NumScopeValidator`. -/
def numScopeMaxRule (fieldName : String) (maxValue : Int) : Rule :=
  ⟨"max", some fun value => Except.ok (
    match jsNumber value with
    | none => ⟨false, fieldName ++ " must be a number"⟩
    | some num =>
      if num > Frac.ofInt maxValue then
        ⟨false, "Maximum " ++ fieldName ++ " is " ++ toString maxValue⟩
      else ⟨true, ""⟩)⟩

/-- Model of the rule list of `NumScopeValidator(fieldName, minValue, maxValue)`. -/
def numScopeRules (fieldName : String) (minValue maxValue : Int) : List Rule :=
  [numScopeMinRule fieldName minValue, numScopeMaxRule fieldName maxValue]

/-- Model of the single rule of `NotEmptyValidator(fieldName)`.  Only
the string branch of the polymorphic predicate is reachable here,
because `validate` always passes the trimmed string value. -/
def notEmptyRules (fieldName : String) : List Rule :=
  [⟨"notEmpty", some fun value => Except.ok (
    if jsTrim value ≠ "" then ⟨true, ""⟩
    else ⟨false, "Field \x27 " ++ fieldName ++ " should not be empty"⟩)⟩]

/-- Model of `EmployeesTable._sorterState`: `COLUMN_INDEX` is `-1` when
no column is active; `SORT` is `1` (`ASC`), `-1` (`DESC`) or `0`
(`NONE`). -/
structure SorterState where
  COLUMN_INDEX : Int
  SORT : Int
deriving DecidableEq

/-- The field initializer of `_sorterState`. -/
def initialSorterState : SorterState := ⟨-1, 0⟩

/-- Model of `EmployeesTable._sortByColumnHandler(colIndex)`: same
column again negates the direction, a different column resets to that
column ascending. -/
def sortByColumnHandler (st : SorterState) (colIndex : Nat) : SorterState :=
  if st.COLUMN_INDEX = (colIndex : Int) then
    { st with SORT := st.SORT * -1 }
  else
    ⟨(colIndex : Int), 1⟩

/-- Fold a sequence of header clicks through the handler. -/
def applyClicks (st : SorterState) (clicks : List Nat) : SorterState :=
  clicks.foldl sortByColumnHandler st

/-- The values of `EmployeesTable.STATE_CLASS`. -/
def sortClasses : List String := ["sorted-asc", "sorted-desc", "sorted-none"]

/-- Model of `STATE_CLASS[sort]`; values outside the three states hit a
missing key, whose `classList.add` argument stringifies to
`"undefined"` (unreachable from user interaction). -/
def stateClass (sort : Int) : String :=
  if sort = 1 then "sorted-asc"
  else if sort = -1 then "sorted-desc"
  else if sort = 0 then "sorted-none"
  else "undefined"

/-- `classList.remove` of every sort-state class. -/
def cleanSort (classes : List String) : List String :=
  classes.filter (fun c => !(c ∈ sortClasses : Bool))

/-- `classList.add`: appends unless already present. -/
def classAdd (classes : List String) (c : String) : List String :=
  if c ∈ classes then classes else classes ++ [c]

/-- The header `forEach` of `_sortByColumn`, carrying the running th
index: every header loses all sort classes, the header at the active
column index gains the class of the current sort state. -/
def updateHeadersGo (ci sort : Int) (i : Nat) :
    List (List String) → List (List String)
  | [] => []
  | h :: t =>
    (if (i : Int) = ci then classAdd (cleanSort h) (stateClass sort)
     else cleanSort h) :: updateHeadersGo ci sort (i + 1) t

/-- Header-row effect of `EmployeesTable._sortByColumn`: each element of
`hs` is the class list of one `th`. -/
def updateHeaders (hs : List (List String)) (ci sort : Int) :
    List (List String) :=
  updateHeadersGo ci sort 0 hs

/-- A column comparator as the sort engine consumes it. -/
def JsCmp : Type := String → String → Int → Frac

/-- Model of `EmployeesTable._extractCellValue`: text of the cell at
`colIndex`, an out-of-range (or negative) index reading as `''`,
trimmed. -/
def extractCellValue (row : List String) (colIndex : Int) : String :=
  if colIndex < 0 then jsTrim ""
  else jsTrim (row.getD colIndex.toNat "")

/-- Row reordering of `_sortByColumn`: a stable sort of the rows by the
comparator on the extracted cell values (the JS engine sort is stable;
stability is modelled with insertion sort). -/
def sortRows (rows : List (List String)) (colIndex : Int) (sort : Int)
    (cmp : JsCmp) : List (List String) :=
  rows.insertionSort (fun rowA rowB =>
    cmp (extractCellValue rowA colIndex) (extractCellValue rowB colIndex) sort ≤
      Frac.ofInt 0)

/-- Model of a user notification pushed through
`CustomNotificationManager.pushNotification(title, message, kind)`. -/
structure Notif where
  title : String
  message : String
  kind : String
deriving DecidableEq

/-- Model of one control of the employee creation form: its `name`
attribute, current value, value after `form.reset()`, and the
validator bound to it at form construction. -/
structure FormField where
  name : String
  value : String
  resetValue : String
  validator : Option (List Rule)

/-- Specification-side success of a single form field: a field without
a bound validator passes, otherwise its pipeline must succeed on its
current value. -/
def fieldOk (f : FormField) : Bool :=
  match f.validator with
  | none => true
  | some rules => (validate (some f.value) rules).success

/-- One iteration of the `forEach` body of
`EmployeesTable.validateEmployee`, threading the `success` flag and the
notifications pushed so far.  The surrounding `try`/`catch` is
unreachable here because `validate` never throws. -/
def validateEmployeeStep (acc : Bool × List Notif) (f : FormField) :
    Bool × List Notif :=
  match f.validator with
  | none => acc
  | some rules =>
    let r := validate (some f.value) rules
    if r.success then acc
    else (false, acc.2 ++ [⟨"Validation failed", r.message, "error"⟩])

/-- Model of `EmployeesTable.validateEmployee(employeeFields)`: the
aggregate success and the notifications pushed, in order. -/
def validateEmployee (fields : List FormField) : Bool × List Notif :=
  let acc := fields.foldl validateEmployeeStep (true, [])
  if acc.1 then
    (true, acc.2 ++ [⟨"Success", "New row was successfully added.", "success"⟩])
  else (false, acc.2)

/-- Model of one entry of `EmployeesTable.FIELDS`: the field name
(`args[0]`), the validator instance, and the formatter.  A formatter
returning `Except.error` models `formatter.format` throwing. -/
structure FieldSchema where
  name : String
  validator : Option (List Rule)
  formatter : Option (String → Except String String)

/-- Model of `EmployeesTable.applyFormatter(def, value)`: no usable
formatter or a throwing formatter passes the raw value through. -/
def applyFormatter (fs : FieldSchema) (value : String) : String :=
  match fs.formatter with
  | none => value
  | some fmt =>
    match fmt value with
    | Except.ok s => s
    | Except.error _ => value

/-- Half-away-from-zero rounding to an integer (`Intl` `halfExpand`):
for `q = n / d` with `d > 0`, the magnitude rounds to
`(2|n| + d) / (2d)` with integer division. -/
def roundHalfAway (q : Frac) : Int :=
  let d : Int := (q.den : Int)
  if q.num < 0 then -((2 * (-q.num) + d) / (2 * d))
  else (2 * q.num + d) / (2 * d)

/-- Group the digits of a natural number in threes with commas
(`en-US`). -/
def groupChars (l : List Char) : List Char :=
  if _h : l.length ≤ 3 then l
  else
    groupChars (l.dropLast.dropLast.dropLast) ++ [','] ++ l.drop (l.length - 3)
termination_by l.length
decreasing_by
  simp only [List.length_dropLast]
  omega

/-- `en-US` grouped decimal digits of a natural number. -/
def groupDigits (n : Nat) : String :=
  String.mk (groupChars (toString n).data)

/-- Model of `MoneyAmountFormatter.format` on string input with the
default locale and config: empty input formats to `''`; the input is
stripped to `[0-9,.-]`, coerced with `Number`; a non-numeric result
falls back to the raw string; a number is formatted as whole-dollar
`en-US` currency. -/
def moneyFormat (value : String) : Except String String :=
  if value = "" then Except.ok ""
  else
    let cleaned := String.mk (value.data.filter
      (fun c => c.isDigit || c == ',' || c == '.' || c == '-'))
    match jsNumber cleaned with
    | none => Except.ok value
    | some q =>
      let n := roundHalfAway q
      Except.ok ((if n < 0 then "-$" else "$") ++ groupDigits n.natAbs)

/-- Model of the static `EmployeesTable.FIELDS` configuration. -/
def FIELDS : List FieldSchema :=
  [⟨"name", some (minStrLenRules "name" 4), none⟩,
   ⟨"position", some (notEmptyRules "position"), none⟩,
   ⟨"office", none, none⟩,
   ⟨"age", some (numScopeRules "age" 18 90), none⟩,
   ⟨"salary", some (notEmptyRules "salary"), some moneyFormat⟩]

/-- Model of `EmployeesTable._buildEmployeeRow(employeeFields)`: one
`td` text per `FIELDS` entry, the value taken from the form field with
the matching name (a `Map` keeps the last binding for a duplicated
name), run through the column formatter. -/
def buildEmployeeRow (formFields : List FormField) : List String :=
  FIELDS.map (fun fs =>
    let v := match formFields.reverse.find? (fun f => f.name == fs.name) with
      | some f => f.value
      | none => ""
    applyFormatter fs v)

/-- Model of the grid state touched by sorting and form submission:
header class lists, body rows (each a list of cell texts), the sorter
state, the creation-form controls and the notification log. -/
structure GridState where
  headers : List (List String)
  rows : List (List String)
  sorter : SorterState
  formFields : List FormField
  notifications : List Notif

/-- Model of `EmployeesTable._sortByColumn(columnIndex)`; `custom`
models the sparse `_customComparators` array.  A missing argument
(`none`) defaults the target column to `0`; the header classes follow
the *sorter state*, not the argument. -/
def sortByColumn (custom : Int → Option JsCmp) (st : GridState)
    (columnIndex : Option Int) : GridState :=
  let colIndex := columnIndex.getD 0
  let cmp := match custom colIndex with
    | some c => c
    | none => defaultComparator
  { st with
    headers := updateHeaders st.headers st.sorter.COLUMN_INDEX st.sorter.SORT,
    rows := sortRows st.rows colIndex st.sorter.SORT cmp }

/-- A header click: mutate the sorter state through the handler, then
sort by the clicked column. -/
def clickHeader (custom : Int → Option JsCmp) (st : GridState)
    (colIndex : Nat) : GridState :=
  let st1 := { st with sorter := sortByColumnHandler st.sorter colIndex }
  sortByColumn custom st1 (some (colIndex : Int))

/-- Model of `EmployeesTable._saveEmployee(event)`: validate every form
field; on full success append the built row, re-sort by the current
sorter column, and reset the form; otherwise change nothing but the
notification log. -/
def saveEmployee (custom : Int → Option JsCmp) (st : GridState) : GridState :=
  let vr := validateEmployee st.formFields
  let st1 := { st with notifications := st.notifications ++ vr.2 }
  if vr.1 then
    let st2 := { st1 with rows := st1.rows ++ [buildEmployeeRow st1.formFields] }
    let st3 := sortByColumn custom st2 (some st2.sorter.COLUMN_INDEX)
    { st3 with formFields := st3.formFields.map (fun f => { f with value := f.resetValue }) }
  else st1

/-- Model of one body cell (`td`): its `cellIndex` within its row, its
text content and whether it carries the `hidden` class. -/
structure Cell where
  colIdx : Nat
  text : String
  hidden : Bool
deriving DecidableEq

/-- Model of one editor replacement control built by
`InlineEditor.buildTargetElement` (the `td.container--cell-input`
wrapper with its input): the control object survives as a JS object
even after removal from the document, so removal is the `inDoc` flag
going `false`. -/
structure OpenControl where
  id : Nat
  originCell : Nat
  value : String
  validator : Option (List Rule)
  inDoc : Bool

/-- Model of an `InlineEditor` instance: the index of its origin cell
and the id of its replacement control.  Both are `none` for an editor
whose constructor returned early (unknown schema index or no origin),
leaving `originElement` and `targetElement` undefined. -/
structure EditorObj where
  origin : Option Nat
  target : Option Nat
deriving DecidableEq

/-- Model of the DOM and controller state the inline-edit lifecycle
touches: the body cells, every control object ever built, the grid's
`_activeEditor` slot, a fresh-id counter and the notification log. -/
structure EditState where
  cells : List Cell
  controls : List OpenControl
  activeEditor : Option EditorObj
  nextId : Nat
  notifications : List Notif

/-- `this.targetElement.firstChild` lookup by control id. -/
def findControl (st : EditState) (cid : Nat) : Option OpenControl :=
  st.controls.find? (fun c => c.id == cid)

/-- Number of editor replacement controls present in the document. -/
def docCount (st : EditState) : Nat :=
  (st.controls.filter (fun c => c.inDoc)).length

/-- The engine message of the `TypeError` raised by
`this.targetElement.firstChild` when `targetElement` is undefined
(caught by the `try` of `complete`). -/
def typeErrorFirstChild : String :=
  "Cannot read properties of undefined (reading \x27firstChild\x27)"

/-- Model of `new InlineEditor(originElement, FIELDS, onComplete)`.
`cellIdx = ` index of the double-clicked cell; a miss in `cells`
models a falsy/non-cell `event.target`.  A cell index with no `FIELDS`
entry returns the inert editor without touching anything.  Otherwise
the replacement control is built, seeded with the cell text, the
column validator is bound to it, the origin cell is hidden and the
control is inserted. -/
def newInlineEditor (st : EditState) (cellIdx : Nat) : EditState × EditorObj :=
  match st.cells.get? cellIdx with
  | none => (st, ⟨none, none⟩)
  | some cell =>
    match FIELDS.get? cell.colIdx with
    | none => (st, ⟨none, none⟩)
    | some fs =>
      let cid := st.nextId
      let ctrl : OpenControl := ⟨cid, cellIdx, cell.text, fs.validator, true⟩
      ({ st with
          cells := st.cells.set cellIdx { cell with hidden := true },
          controls := st.controls ++ [ctrl],
          nextId := cid + 1 },
       ⟨some cellIdx, some cid⟩)

/-- `removeChild(targetElement)`: the control with the given id leaves
the document. -/
def removeControlFromDoc (controls : List OpenControl) (cid : Nat) :
    List OpenControl :=
  controls.map (fun c => if c.id = cid then { c with inDoc := false } else c)

/-- Commit of `complete()` on the origin cell: write the control value
into `textContent` and drop the `hidden` class. -/
def commitCell (cells : List Cell) (idx : Nat) (text : String) : List Cell :=
  match cells.get? idx with
  | some cell => cells.set idx { cell with text := text, hidden := false }
  | none => cells

/-- Model of `InlineEditor.complete()` on a given editor object.  The
boolean reports whether the commit path ran (in which case the caller
side `onComplete` nulls the active-editor slot; the sort retrigger of
`onComplete` only reorders rows and is outside this state).  An inert
editor raises inside the `try` (undefined `targetElement`), which is
caught and reported as an `Error` notification.  A validation failure
is reported and nothing else changes.  A commit reports success,
copies the control value into the origin cell, removes the control
from the document and unhides the cell. -/
def completeEditor (st : EditState) (ed : EditorObj) : EditState × Bool :=
  match ed.target with
  | none =>
    ({ st with notifications :=
        st.notifications ++ [⟨"Error", typeErrorFirstChild, "error"⟩] }, false)
  | some cid =>
    match findControl st cid with
    | none =>
      ({ st with notifications :=
          st.notifications ++ [⟨"Error", typeErrorFirstChild, "error"⟩] }, false)
    | some ctrl =>
      let vres : BaseValidationResult :=
        match ctrl.validator with
        | some rules => validate (some ctrl.value) rules
        | none => ⟨true, ""⟩
      if vres.success then
        ({ st with
            notifications := st.notifications ++
              [⟨"Success", "New row was successfully added.", "success"⟩],
            cells := commitCell st.cells ctrl.originCell ctrl.value,
            controls := removeControlFromDoc st.controls cid }, true)
      else
        ({ st with notifications := st.notifications ++
            [⟨"Validation failed", vres.message, "error"⟩] }, false)

/-- `complete()` on the grid's active editor, including the
`onComplete` callback clearing `_activeEditor` when the commit path
ran. -/
def completeActive (st : EditState) : EditState :=
  match st.activeEditor with
  | none => st
  | some ed =>
    let p := completeEditor st ed
    if p.2 then { p.1 with activeEditor := none } else p.1

/-- Model of the `dblclick` handler of the `EmployeesTable`
constructor: complete the active editor if any, then construct a new
`InlineEditor` on the target cell and store it in `_activeEditor`
unconditionally. -/
def dblclickStep (st : EditState) (cellIdx : Nat) : EditState :=
  let st1 :=
    match st.activeEditor with
    | some _ => completeActive st
    | none => st
  let p := newInlineEditor st1 cellIdx
  { p.1 with activeEditor := some p.2 }

/-- The user typing into the focused replacement control (the active
editor's control). -/
def inputStep (st : EditState) (v : String) : EditState :=
  match st.activeEditor with
  | some ed =>
    match ed.target with
    | some cid =>
      { st with controls := st.controls.map fun c =>
          if c.id = cid then { c with value := v } else c }
    | none => st
  | none => st

/-- A completion trigger on the active editor: `focusout`, or Enter
(which removes the `focusout` listener before completing, so the two
triggers complete once). -/
def confirmStep (st : EditState) : EditState := completeActive st

/-- The user events the inline-edit lifecycle reacts to. -/
inductive UiEvent where
  | dbl (cellIdx : Nat)
  | input (v : String)
  | confirm
deriving DecidableEq

/-- Dispatch one user event. -/
def stepEv (st : EditState) : UiEvent → EditState
  | UiEvent.dbl i => dblclickStep st i
  | UiEvent.input v => inputStep st v
  | UiEvent.confirm => confirmStep st

/-- Run a sequence of user events. -/
def runEvents (st : EditState) (evs : List UiEvent) : EditState :=
  evs.foldl stepEv st

/-- `true` when the active editor's replacement control is the one with
the given id. -/
def activeOwns (st : EditState) (cid : Nat) : Bool :=
  match st.activeEditor with
  | some ed => ed.target == some cid
  | none => false

/-- Document discipline: every control in the document belongs to the
active editor. -/
def EditInv (st : EditState) : Prop :=
  ∀ c ∈ st.controls, c.inDoc = true → activeOwns st c.id = true

/-- The active editor's completion, if there is one, takes the commit
path on the current state. -/
def Commits (st : EditState) : Prop :=
  ∀ ed, st.activeEditor = some ed → (completeEditor st ed).2 = true

/-- A two-cell body row whose name cell ("ab") fails the name
validator (minimum length 4). -/
def editStateBad : EditState :=
  ⟨[⟨0, "ab", false⟩, ⟨1, "Developer", false⟩], [], none, 0, []⟩

/-- A two-cell body row whose name cell ("John") passes the name
validator. -/
def editStateOk : EditState :=
  ⟨[⟨0, "John", false⟩, ⟨1, "Developer", false⟩], [], none, 0, []⟩

/-- A body cell at a cell index (5) with no `FIELDS` entry. -/
def editStateMiss : EditState :=
  ⟨[⟨5, "x", false⟩], [], none, 0, []⟩

/-- A two-column grid with two one-cell rows and no sort state yet. -/
def gridDemo : GridState :=
  ⟨[[], []], [["b"], ["a"]], ⟨-1, 0⟩, [], []⟩

/-- A two-column grid whose sorter state is column 0 ascending. -/
def gridSortedDemo : GridState :=
  ⟨[[], []], [["b"], ["a"]], ⟨0, 1⟩, [], []⟩

/-- Creation-form fields with an invalid name value ("ab") and the
other fields valid. -/
def formFieldsBad : List FormField :=
  [⟨"name", "ab", "", some (minStrLenRules "name" 4)⟩,
   ⟨"position", "Developer", "", some (notEmptyRules "position")⟩,
   ⟨"office", "Tokyo", "Tokyo", none⟩,
   ⟨"age", "30", "", some (numScopeRules "age" 18 90)⟩,
   ⟨"salary", "1500", "", some (notEmptyRules "salary")⟩]

/-- Creation-form fields on which every bound validator succeeds. -/
def formFieldsOk : List FormField :=
  [⟨"name", "John", "", some (minStrLenRules "name" 4)⟩,
   ⟨"position", "Developer", "", some (notEmptyRules "position")⟩,
   ⟨"office", "Tokyo", "Tokyo", none⟩,
   ⟨"age", "30", "", some (numScopeRules "age" 18 90)⟩,
   ⟨"salary", "1500", "", some (notEmptyRules "salary")⟩]

/-- A five-column grid carrying the given creation-form fields. -/
def gridWithForm (ffs : List FormField) : GridState :=
  ⟨[[], [], [], [], []], [], ⟨-1, 0⟩, ffs, []⟩

/-- The notification a single form field contributes on failure
(specification side): none when it has no validator or passes. -/
def specFailNotif (f : FormField) : Option Notif :=
  match f.validator with
  | none => none
  | some rules =>
    let r := validate (some f.value) rules
    if r.success then none
    else some ⟨"Validation failed", r.message, "error"⟩

/-- The failure notifications of a field list, in field order. -/
def failNotifs (fields : List FormField) : List Notif :=
  fields.filterMap specFailNotif

/-- The success notification pushed by `validateEmployee`. -/
def successNotif : Notif :=
  ⟨"Success", "New row was successfully added.", "success"⟩

theorem validateStep_eq (value : String) (acc : Bool × List String) (r : Rule) :
    validateStep value acc r =
      (if (specRuleOutcome value r).success then acc
       else (false, acc.2 ++ [(specRuleOutcome value r).message])) := by
  unfold validateStep specRuleOutcome
  cases hf : r.func with
  | none => simp
  | some f =>
    cases hres : f value with
    | ok res => simp [hres]
    | error e => simp [hres]

theorem validate_foldl_eq (value : String) (rules : List Rule) (b : Bool)
    (ms : List String) :
    rules.foldl (validateStep value) (b, ms) =
      (b && rules.all (fun r => (specRuleOutcome value r).success),
       ms ++ specFailMessages value rules) := by
  induction rules generalizing b ms with
  | nil => simp [specFailMessages]
  | cons r rs ih =>
    rw [List.foldl_cons, validateStep_eq]
    cases hs : (specRuleOutcome value r).success
    · simp only [hs, if_false, Bool.false_eq_true]
      rw [ih]
      simp [specFailMessages, List.filterMap_cons, hs]
    · simp only [hs, if_true]
      rw [ih]
      simp [specFailMessages, List.filterMap_cons, hs]

/-- C5: for every rule list and bound field value, `validate` runs the
whole rule list with no short-circuit: the overall success is the
conjunction of all per-rule outcomes, the failing rules' messages are
collected in rule order and joined with `"; "`, a raising predicate is
converted to a failure outcome carrying the error text instead of
propagating, and an unbound pipeline yields
`{success: false, message: "Field not bound"}`. -/
theorem validate_characterization :
    (∀ rules, validate none rules = ⟨false, "Field not bound"⟩) ∧
    (∀ v rules, validate (some v) rules =
      ⟨rules.all (fun r => (specRuleOutcome (jsTrim v) r).success),
       String.intercalate "; " (specFailMessages (jsTrim v) rules)⟩) ∧
    (∀ v name e,
      specRuleOutcome v ⟨name, some fun _ => Except.error e⟩ =
        ⟨false, "Validation " ++ name ++ " failed: " ++ e⟩) := by
  refine ⟨fun rules => rfl, fun v rules => ?_, fun v name e => rfl⟩
  have hv : validate (some v) rules =
      ⟨(rules.foldl (validateStep (jsTrim v)) (true, [])).1,
       String.intercalate "; "
         (rules.foldl (validateStep (jsTrim v)) (true, [])).2⟩ := rfl
  rw [hv, validate_foldl_eq]
  simp

/-- C9: the numeric-range validator with inclusive bounds `[18, 90]`
fails "17" on the min rule, fails "91" on the max rule, passes "18"
and "90", fails "abc" on both rules with the type-specific message,
and in each rule any non-numeric value yields the type message (the
non-numeric check precedes the bound check). -/
theorem age_range_validator :
    validate (some "17") (numScopeRules "age" 18 90) =
        ⟨false, "Minimum age is 18"⟩ ∧
    validate (some "91") (numScopeRules "age" 18 90) =
        ⟨false, "Maximum age is 90"⟩ ∧
    validate (some "18") (numScopeRules "age" 18 90) = ⟨true, ""⟩ ∧
    validate (some "90") (numScopeRules "age" 18 90) = ⟨true, ""⟩ ∧
    validate (some "abc") (numScopeRules "age" 18 90) =
        ⟨false, "age must be a number; age must be a number"⟩ ∧
    (∀ v, jsNumber v = none →
      specRuleOutcome v (numScopeMinRule "age" 18) =
          ⟨false, "age must be a number"⟩ ∧
        specRuleOutcome v (numScopeMaxRule "age" 90) =
          ⟨false, "age must be a number"⟩) := by
  refine ⟨by decide, by decide, by decide, by decide, by decide, fun v h => ?_⟩
  constructor
  · simp [specRuleOutcome, numScopeMinRule, h]
  · simp [specRuleOutcome, numScopeMaxRule, h]

theorem age_range_validator_witness :
    jsNumber "abc" = none ∧
      specRuleOutcome "abc" (numScopeMinRule "age" 18) =
        ⟨false, "age must be a number"⟩ :=
  ⟨by decide, (age_range_validator.2.2.2.2.2 "abc" (by decide)).1⟩

/-- C10: with a positive minimum (and non-negative maximum), a bound
value that is empty or whitespace-only trims to `""`, which `Number`
coerces to `0`: the min rule fails with the range message (not the
type message) and the max rule passes, so the pipeline reports exactly
the minimum-bound failure. -/
theorem empty_value_numeric_zero :
    ∀ (f : String) (lo hi : Int) (v : String),
      0 < lo → 0 ≤ hi → jsTrim v = "" →
      validate (some v) (numScopeRules f lo hi) =
          ⟨false, "Minimum " ++ f ++ " is " ++ toString lo⟩ ∧
        specRuleOutcome (jsTrim v) (numScopeMinRule f lo) =
          ⟨false, "Minimum " ++ f ++ " is " ++ toString lo⟩ ∧
        specRuleOutcome (jsTrim v) (numScopeMaxRule f hi) = ⟨true, ""⟩ := by
  intro f lo hi v hlo hhi htrim
  have hminlt : Frac.ofInt 0 < Frac.ofInt lo := by
    show Frac.lt _ _
    simp only [Frac.lt, Frac.ofInt]
    omega
  have hmaxle : ¬(Frac.ofInt 0 > Frac.ofInt hi) := by
    show ¬Frac.lt _ _
    simp only [Frac.lt, Frac.ofInt]
    omega
  have h1 : specRuleOutcome "" (numScopeMinRule f lo) =
      ⟨false, "Minimum " ++ f ++ " is " ++ toString lo⟩ := by
    simp only [specRuleOutcome, numScopeMinRule]
    rw [show jsNumber "" = some (Frac.ofInt 0) from rfl]
    simp [hminlt]
  have h2 : specRuleOutcome "" (numScopeMaxRule f hi) = ⟨true, ""⟩ := by
    simp only [specRuleOutcome, numScopeMaxRule]
    rw [show jsNumber "" = some (Frac.ofInt 0) from rfl]
    simp [hmaxle]
  refine ⟨?_, htrim ▸ h1, htrim ▸ h2⟩
  have hv : validate (some v) (numScopeRules f lo hi) =
      ⟨((numScopeRules f lo hi).foldl (validateStep (jsTrim v)) (true, [])).1,
       String.intercalate "; "
         (((numScopeRules f lo hi)).foldl (validateStep (jsTrim v)) (true, [])).2⟩ := rfl
  rw [hv, htrim, validate_foldl_eq]
  simp [numScopeRules, specFailMessages, List.filterMap_cons, h1, h2,
    String.intercalate, String.intercalate.go]

theorem empty_value_numeric_zero_witness :
    validate (some "  ") (numScopeRules "age" 18 90) =
      ⟨false, "Minimum " ++ "age" ++ " is " ++ toString (18 : Int)⟩ :=
  (empty_value_numeric_zero "age" 18 90 "  " (by decide) (by decide)
    (by decide)).1

theorem handler_pm (st : SorterState) (c : Nat)
    (h : st.SORT = 1 ∨ st.SORT = -1 ∨ st = initialSorterState) :
    (sortByColumnHandler st c).SORT = 1 ∨ (sortByColumnHandler st c).SORT = -1 := by
  by_cases hc : st.COLUMN_INDEX = (c : Int)
  · rw [sortByColumnHandler, if_pos hc]
    rcases h with h | h | h
    · right
      simp [h]
    · left
      simp [h]
    · exfalso
      rw [h] at hc
      simp only [initialSorterState] at hc
      omega
  · rw [sortByColumnHandler, if_neg hc]
    left
    rfl

theorem sorterInv_applyClicks (l : List Nat) (st : SorterState)
    (h : st.SORT = 1 ∨ st.SORT = -1 ∨ st = initialSorterState) :
    (applyClicks st l).SORT = 1 ∨ (applyClicks st l).SORT = -1 ∨
      applyClicks st l = initialSorterState := by
  induction l generalizing st with
  | nil => exact h
  | cons c cs ih =>
    show (applyClicks (sortByColumnHandler st c) cs).SORT = 1 ∨ _ ∨ _
    rcases handler_pm st c h with h1 | h1
    · exact ih _ (Or.inl h1)
    · exact ih _ (Or.inr (Or.inl h1))

theorem handler_col (st : SorterState) (c : Nat) :
    (sortByColumnHandler st c).COLUMN_INDEX = (c : Int) := by
  unfold sortByColumnHandler
  split
  · next h => exact h
  · rfl

/-- C7: clicking the active sort column negates the direction (so it
only alternates between ascending `1` and descending `-1`); clicking a
different column resets the state to that column ascending; and after
any nonempty click sequence from the initial state the active column
is the last clicked one with direction `1` or `-1` — the `none`
direction (`0`) is unreachable once a column is active. -/
theorem sort_click_state_machine :
    ∀ (st : SorterState) (c : Nat) (clicks : List Nat),
      (st.COLUMN_INDEX = (c : Int) →
        sortByColumnHandler st c = ⟨(c : Int), st.SORT * -1⟩) ∧
      (st.COLUMN_INDEX ≠ (c : Int) →
        sortByColumnHandler st c = ⟨(c : Int), 1⟩) ∧
      (applyClicks initialSorterState (clicks ++ [c])).COLUMN_INDEX = (c : Int) ∧
      ((applyClicks initialSorterState (clicks ++ [c])).SORT = 1 ∨
        (applyClicks initialSorterState (clicks ++ [c])).SORT = -1) := by
  intro st c clicks
  have happ : applyClicks initialSorterState (clicks ++ [c]) =
      sortByColumnHandler (applyClicks initialSorterState clicks) c := by
    simp [applyClicks, List.foldl_append]
  refine ⟨?_, ?_, ?_, ?_⟩
  · intro h
    rw [sortByColumnHandler, if_pos h, ← h]
  · intro h
    rw [sortByColumnHandler, if_neg h]
  · rw [happ]
    exact handler_col _ _
  · rw [happ]
    exact handler_pm _ _
      (sorterInv_applyClicks clicks initialSorterState (Or.inr (Or.inr rfl)))

theorem sort_click_state_machine_witness :
    sortByColumnHandler ⟨0, 1⟩ 0 = ⟨0, -1⟩ ∧
      (applyClicks initialSorterState [2]).COLUMN_INDEX = 2 :=
  ⟨(sort_click_state_machine ⟨0, 1⟩ 0 []).1 rfl,
   (sort_click_state_machine ⟨0, 1⟩ 2 []).2.2.1⟩

theorem updateHeadersGo_length (ci sort : Int) :
    ∀ (hs : List (List String)) (k : Nat),
      (updateHeadersGo ci sort k hs).length = hs.length := by
  intro hs
  induction hs with
  | nil => intro k; rfl
  | cons hd tl ih =>
    intro k
    show (updateHeadersGo ci sort (k + 1) tl).length + 1 = tl.length + 1
    rw [ih]

theorem updateHeadersGo_getD (ci sort : Int) :
    ∀ (hs : List (List String)) (k i : Nat), i < hs.length →
      (updateHeadersGo ci sort k hs).getD i [] =
        (if ((k + i : Nat) : Int) = ci then
          classAdd (cleanSort (hs.getD i [])) (stateClass sort)
         else cleanSort (hs.getD i [])) := by
  intro hs
  induction hs with
  | nil =>
    intro k i h
    simp at h
  | cons hd tl ih =>
    intro k i h
    cases i with
    | zero =>
      show (if ((k : Nat) : Int) = ci then _ else _) = _
      rfl
    | succ n =>
      have hn : n < tl.length := by simpa using h
      show (updateHeadersGo ci sort (k + 1) tl).getD n [] = _
      rw [ih (k + 1) n hn]
      have harith : k + 1 + n = k + (n + 1) := by omega
      rw [harith]
      rfl

theorem mem_cleanSort_not_sort {c : String} (h : c ∈ sortClasses)
    (l : List String) : c ∉ cleanSort l := by
  intro hc
  rcases List.mem_filter.mp hc with ⟨_, hp⟩
  simp only [Bool.not_eq_true', decide_eq_false_iff_not] at hp
  exact hp h

theorem mem_classAdd_self (l : List String) (c : String) : c ∈ classAdd l c := by
  unfold classAdd
  split
  · assumption
  · simp

theorem mem_classAdd_elim {l : List String} {c d : String}
    (h : d ∈ classAdd l c) : d ∈ l ∨ d = c := by
  unfold classAdd at h
  split at h
  · exact Or.inl h
  · rcases List.mem_append.mp h with h1 | h1
    · exact Or.inl h1
    · exact Or.inr (by simpa using h1)

theorem stateClass_mem_sortClasses {sort : Int}
    (h : sort = 1 ∨ sort = -1) : stateClass sort ∈ sortClasses := by
  rcases h with rfl | rfl <;> decide

/-- C4 (amended): after a sort with an in-range active column and an
ascending/descending direction, exactly the active header carries a
sort class — namely the direction class — while every *other* header
carries no sort-state class at all (in particular not the `"none"`
class, which the code removes and never reassigns to inactive
headers). -/
theorem header_class_amended :
    ∀ (custom : Int → Option JsCmp) (st : GridState) (ci : Option Int),
      0 ≤ st.sorter.COLUMN_INDEX →
      st.sorter.COLUMN_INDEX < (st.headers.length : Int) →
      (st.sorter.SORT = 1 ∨ st.sorter.SORT = -1) →
      ((sortByColumn custom st ci).headers.length = st.headers.length ∧
        ∀ i : Nat, i < st.headers.length →
          (((i : Int) = st.sorter.COLUMN_INDEX →
              stateClass st.sorter.SORT ∈
                  (sortByColumn custom st ci).headers.getD i [] ∧
                ∀ c ∈ sortClasses, c ≠ stateClass st.sorter.SORT →
                  c ∉ (sortByColumn custom st ci).headers.getD i []) ∧
            ((i : Int) ≠ st.sorter.COLUMN_INDEX →
              ∀ c ∈ sortClasses,
                c ∉ (sortByColumn custom st ci).headers.getD i []))) := by
  intro custom st ci _hge _hlt hsort
  have hhd : (sortByColumn custom st ci).headers =
      updateHeadersGo st.sorter.COLUMN_INDEX st.sorter.SORT 0 st.headers := rfl
  constructor
  · rw [hhd]
    exact updateHeadersGo_length _ _ _ _
  · intro i hi
    have hget := updateHeadersGo_getD st.sorter.COLUMN_INDEX st.sorter.SORT
      st.headers 0 i hi
    rw [Nat.zero_add] at hget
    constructor
    · intro hci
      rw [hhd, hget, if_pos hci]
      refine ⟨mem_classAdd_self _ _, ?_⟩
      intro c hc hne hmem
      rcases mem_classAdd_elim hmem with h1 | h1
      · exact mem_cleanSort_not_sort hc _ h1
      · exact hne h1
    · intro hci c hc hmem
      rw [hhd, hget, if_neg hci] at hmem
      exact mem_cleanSort_not_sort hc _ hmem

theorem header_class_amended_witness :
    stateClass 1 ∈
      (sortByColumn (fun _ => none) gridSortedDemo (some 0)).headers.getD 0 [] :=
  (((header_class_amended (fun _ => none) gridSortedDemo (some 0)
    (by decide) (by decide) (Or.inl rfl)).2 0 (by decide)).1 rfl).1

/-- C4 counterexample: sorting the two-column demo grid by column 0
leaves header 1 with no class at all — the claimed `"sorted-none"`
class is absent from the non-active header. -/
theorem header_class_counterexample :
    (clickHeader (fun _ => none) gridDemo 0).headers = [["sorted-asc"], []] ∧
      ¬("sorted-none" ∈ (clickHeader (fun _ => none) gridDemo 0).headers.getD 1 []) := by
  constructor
  · rfl
  · decide

theorem validateEmployeeStep_eq (acc : Bool × List Notif) (f : FormField) :
    validateEmployeeStep acc f =
      (match specFailNotif f with
       | none => acc
       | some n => (false, acc.2 ++ [n])) := by
  unfold validateEmployeeStep specFailNotif
  cases hv : f.validator with
  | none => rfl
  | some rules =>
    cases hs : (validate (some f.value) rules).success <;> simp [hs]

theorem fieldOk_iff_specFailNotif (f : FormField) :
    fieldOk f = true ↔ specFailNotif f = none := by
  unfold fieldOk specFailNotif
  cases hv : f.validator with
  | none => simp
  | some rules =>
    cases hs : (validate (some f.value) rules).success <;> simp [hs]

theorem validateEmployee_foldl (fields : List FormField) (b : Bool)
    (ns : List Notif) :
    fields.foldl validateEmployeeStep (b, ns) =
      (b && fields.all fieldOk, ns ++ failNotifs fields) := by
  induction fields generalizing b ns with
  | nil => simp [failNotifs]
  | cons f fs ih =>
    rw [List.foldl_cons, validateEmployeeStep_eq]
    cases hn : specFailNotif f with
    | none =>
      have hok : fieldOk f = true := (fieldOk_iff_specFailNotif f).mpr hn
      rw [ih]
      simp [failNotifs, List.filterMap_cons, hn, hok]
    | some n =>
      have hok : fieldOk f = false := by
        cases h : fieldOk f
        · rfl
        · rw [(fieldOk_iff_specFailNotif f).mp h] at hn
          cases hn
      rw [ih]
      simp [failNotifs, List.filterMap_cons, hn, hok]

theorem validateEmployee_eq (fields : List FormField) :
    validateEmployee fields =
      (fields.all fieldOk,
       failNotifs fields ++
         (if fields.all fieldOk then [successNotif] else [])) := by
  unfold validateEmployee
  rw [validateEmployee_foldl]
  cases hall : fields.all fieldOk <;> simp [hall, successNotif]

theorem sortRows_length (rows : List (List String)) (colIndex sort : Int)
    (cmp : JsCmp) : (sortRows rows colIndex sort cmp).length = rows.length :=
  (List.perm_insertionSort _ _).length_eq

theorem mem_sortRows_of_mem {x : List String} {rows : List (List String)}
    (colIndex sort : Int) (cmp : JsCmp) (h : x ∈ rows) :
    x ∈ sortRows rows colIndex sort cmp :=
  ((List.perm_insertionSort _ _).mem_iff).mpr h

/-- C8: form submission validates every bound field with no
short-circuit — the aggregate success is the conjunction over all
fields and every failing field's notification is pushed in field
order — and a row is appended exactly on full success: on any failure
the row list is unchanged, on success the built row joins the table
and the row count grows by one. -/
theorem form_submit_gate :
    (∀ fields, (validateEmployee fields).1 = fields.all fieldOk) ∧
    (∀ fields, (validateEmployee fields).2 =
      failNotifs fields ++
        (if fields.all fieldOk then [successNotif] else [])) ∧
    (∀ (custom : Int → Option JsCmp) (st : GridState),
      st.formFields.all fieldOk = false →
      (saveEmployee custom st).rows = st.rows) ∧
    (∀ (custom : Int → Option JsCmp) (st : GridState),
      st.formFields.all fieldOk = true →
      (saveEmployee custom st).rows.length = st.rows.length + 1 ∧
        buildEmployeeRow st.formFields ∈ (saveEmployee custom st).rows) := by
  refine ⟨fun fields => by rw [validateEmployee_eq],
    fun fields => by rw [validateEmployee_eq], ?_, ?_⟩
  · intro custom st h
    unfold saveEmployee
    rw [validateEmployee_eq, h]
    simp
  · intro custom st h
    unfold saveEmployee
    rw [validateEmployee_eq, h]
    simp only [if_true, Bool.true_eq]
    constructor
    · show (sortRows (st.rows ++ [buildEmployeeRow st.formFields]) _ _ _).length = _
      rw [sortRows_length]
      simp
    · show buildEmployeeRow st.formFields ∈
        sortRows (st.rows ++ [buildEmployeeRow st.formFields]) _ _ _
      exact mem_sortRows_of_mem _ _ _ (by simp)

theorem form_submit_gate_witness :
    (gridWithForm formFieldsOk).formFields.all fieldOk = true ∧
      (saveEmployee (fun _ => none) (gridWithForm formFieldsOk)).rows.length =
        (gridWithForm formFieldsOk).rows.length + 1 ∧
      (gridWithForm formFieldsBad).formFields.all fieldOk = false ∧
      (saveEmployee (fun _ => none) (gridWithForm formFieldsBad)).rows =
        (gridWithForm formFieldsBad).rows :=
  ⟨by decide,
   (form_submit_gate.2.2.2 (fun _ => none) (gridWithForm formFieldsOk)
     (by decide)).1,
   by decide,
   form_submit_gate.2.2.1 (fun _ => none) (gridWithForm formFieldsBad)
     (by decide)⟩

theorem digit_not_ws {c : Char} (h : c.isDigit = true) :
    c.isWhitespace = false := by
  cases hw : c.isWhitespace
  · rfl
  · exfalso
    have hc : c = ' ' ∨ c = '\t' ∨ c = '\r' ∨ c = '\n' := by
      simpa [Char.isWhitespace, Bool.or_eq_true, decide_eq_true_eq, or_assoc]
        using hw
    rcases hc with rfl | rfl | rfl | rfl <;> exact absurd h (by decide)

theorem digit_not_comma {c : Char} (h : c.isDigit = true) :
    (c == ',') = false := by
  cases hb : c == ','
  · rfl
  · exfalso
    have hc : c = ',' := by simpa using hb
    subst hc
    exact absurd h (by decide)

theorem digit_not_stripped {c : Char} (h : c.isDigit = true) :
    strippedChar c = false := by
  unfold strippedChar
  rw [digit_not_ws h, digit_not_comma h]
  rfl

theorem not_ws_of_not_stripped {c : Char} (h : strippedChar c = false) :
    c.isWhitespace = false := by
  cases hw : c.isWhitespace
  · rfl
  · exfalso
    unfold strippedChar at h
    rw [hw] at h
    simp at h

theorem dropWhile_eq_self_of_forall {α : Type} (p : α → Bool) (l : List α)
    (h : ∀ c ∈ l, p c = false) : l.dropWhile p = l := by
  cases l with
  | nil => rfl
  | cons a t =>
    rw [List.dropWhile_cons, h a (by simp)]
    simp

theorem dropWhile_ws_filter (l : List Char) :
    (l.filter (fun c => !strippedChar c)).dropWhile Char.isWhitespace =
      l.filter (fun c => !strippedChar c) := by
  apply dropWhile_eq_self_of_forall
  intro c hc
  have hkeep := (List.mem_filter.mp hc).2
  rw [Bool.not_eq_true'] at hkeep
  exact not_ws_of_not_stripped hkeep

theorem filter_keep_of_digits (l : List Char)
    (h : ∀ d ∈ l, d.isDigit = true) :
    l.filter (fun c => !strippedChar c) = l := by
  apply List.filter_eq_self.mpr
  intro a ha
  rw [digit_not_stripped (h a ha)]
  rfl

theorem filter_keep_minus (l : List Char) :
    ('-' :: l).filter (fun c => !strippedChar c) =
      '-' :: l.filter (fun c => !strippedChar c) := by
  rw [List.filter_cons, if_pos (by decide)]

theorem filter_keep_dot (l : List Char) :
    ('.' :: l).filter (fun c => !strippedChar c) =
      '.' :: l.filter (fun c => !strippedChar c) := by
  rw [List.filter_cons, if_pos (by decide)]

theorem filter_keep_comma (l : List Char) :
    (',' :: l).filter (fun c => !strippedChar c) =
      l.filter (fun c => !strippedChar c) := by
  rw [List.filter_cons, if_neg (by decide)]

theorem takeWhile_drop_append {p : Char → Bool} (l₁ l₂ : List Char)
    (h1 : ∀ c ∈ l₁, p c = true)
    (h2 : ∀ c, l₂.head? = some c → p c = false) :
    (l₁ ++ l₂).takeWhile p = l₁ ∧ (l₁ ++ l₂).dropWhile p = l₂ := by
  induction l₁ with
  | nil =>
    simp only [List.nil_append]
    cases l₂ with
    | nil => exact ⟨rfl, rfl⟩
    | cons c t =>
      have hc := h2 c rfl
      rw [List.takeWhile_cons, List.dropWhile_cons, hc]
      exact ⟨rfl, rfl⟩
  | cons a t ih =>
    have ha := h1 a (by simp)
    have iht := ih (fun c hc => h1 c (by simp [hc]))
    simp only [List.cons_append, List.takeWhile_cons, List.dropWhile_cons, ha,
      if_true]
    exact ⟨by rw [iht.1], by rw [iht.2]⟩

theorem matchFrac_cases {rest : List Char} (h : matchFrac rest = true) :
    rest = [] ∨ ∃ c fs, rest = c :: fs ∧ (c = '.' ∨ c = ',') ∧ fs ≠ [] ∧
      ∀ d ∈ fs, d.isDigit = true := by
  cases rest with
  | nil => exact Or.inl rfl
  | cons c fs =>
    right
    have hb : matchFrac (c :: fs) =
        (if (c = '.' ∨ c = ',') ∧ fs ≠ [] then fs.all Char.isDigit
         else false) := rfl
    rw [hb] at h
    by_cases hcond : (c = '.' ∨ c = ',') ∧ fs ≠ []
    · rw [if_pos hcond] at h
      exact ⟨c, fs, rfl, hcond.1, hcond.2, fun d hd => List.all_eq_true.mp h d hd⟩
    · rw [if_neg hcond] at h
      cases h

theorem msd_decomp {cs : List Char} (h : msdAux cs = true) :
    ∃ (sign : Bool) (ds rest : List Char),
      cs = (if sign then '-' :: (ds ++ rest) else ds ++ rest) ∧
      ds ≠ [] ∧ (∀ d ∈ ds, d.isDigit = true) ∧ matchFrac rest = true := by
  cases cs with
  | nil => cases h
  | cons c r =>
    by_cases hc : c = '-'
    · subst hc
      have hb : msdAux ('-' :: r) =
          (!(r.takeWhile Char.isDigit).isEmpty &&
            matchFrac (r.dropWhile Char.isDigit)) := rfl
      rw [hb, Bool.and_eq_true] at h
      refine ⟨true, r.takeWhile Char.isDigit, r.dropWhile Char.isDigit,
        ?_, ?_, ?_, h.2⟩
      · simp [List.takeWhile_append_dropWhile]
      · have h1 := h.1
        simp only [Bool.not_eq_true', List.isEmpty_eq_false_iff_exists_mem] at h1
        rcases h1 with ⟨a, ha⟩
        intro hnil
        rw [hnil] at ha
        cases ha
      · intro d hd
        exact List.mem_takeWhile_imp hd
    · have hb : msdAux (c :: r) =
          (!((if c = '-' then r else c :: r).takeWhile Char.isDigit).isEmpty &&
            matchFrac ((if c = '-' then r else c :: r).dropWhile Char.isDigit)) :=
        rfl
      rw [hb, if_neg hc, Bool.and_eq_true] at h
      refine ⟨false, (c :: r).takeWhile Char.isDigit,
        (c :: r).dropWhile Char.isDigit, ?_, ?_, ?_, h.2⟩
      · simp [List.takeWhile_append_dropWhile]
      · have h1 := h.1
        simp only [Bool.not_eq_true', List.isEmpty_eq_false_iff_exists_mem] at h1
        rcases h1 with ⟨a, ha⟩
        intro hnil
        rw [hnil] at ha
        cases ha
      · intro d hd
        exact List.mem_takeWhile_imp hd

theorem splitSign_of_digit {c : Char} (h : c.isDigit = true) (r : List Char) :
    splitSign (c :: r) = (false, c :: r) := by
  have hb : splitSign (c :: r) =
      (if c = '-' then (true, r)
       else if c = '+' then (false, r) else (false, c :: r)) := rfl
  rw [hb, if_neg, if_neg]
  · intro he
    subst he
    exact absurd h (by decide)
  · intro he
    subst he
    exact absurd h (by decide)

theorem jpfBody_isSome (sign : Bool) (ds rest' : List Char)
    (hds : ds ≠ []) (hdig : ∀ d ∈ ds, d.isDigit = true)
    (hshape : rest' = [] ∨ ∃ fs, rest' = '.' :: fs) :
    (jpfBody sign (ds ++ rest')).isSome = true := by
  have h2 : ∀ c, rest'.head? = some c → c.isDigit = false := by
    intro c hc
    rcases hshape with rfl | ⟨fs, rfl⟩
    · cases hc
    · cases hc
      decide
  have hsplit := takeWhile_drop_append ds rest' hdig h2
  rcases hshape with rfl | ⟨fs, rfl⟩
  · unfold jpfBody
    rw [hsplit.1, hsplit.2]
    show (if ds = [] then none else some (decOfParts sign ds [])).isSome = true
    rw [if_neg hds]
    rfl
  · unfold jpfBody
    rw [hsplit.1, hsplit.2]
    show (if ('.' : Char) = '.' then
        (if ds = [] ∧ fs.takeWhile Char.isDigit = [] then none
         else some (decOfParts sign ds (fs.takeWhile Char.isDigit)))
      else if ds = [] then none
      else some (decOfParts sign ds [])).isSome = true
    rw [if_pos rfl, if_neg (fun hand => hds hand.1)]
    rfl

theorem jpfAux_signed (sign : Bool) (body : List Char)
    (hne : body ≠ []) (hhead : ∀ c, body.head? = some c → c.isDigit = true) :
    jpfAux (if sign then '-' :: body else body) = jpfBody sign body := by
  cases sign
  · simp only [Bool.false_eq_true, if_false]
    cases body with
    | nil => exact absurd rfl hne
    | cons c r =>
      have hc := hhead c rfl
      unfold jpfAux
      rw [splitSign_of_digit hc]
  · rfl

theorem head_append_digit (ds tail : List Char) (hds : ds ≠ [])
    (hdig : ∀ d ∈ ds, d.isDigit = true) :
    ∀ c, (ds ++ tail).head? = some c → c.isDigit = true := by
  cases ds with
  | nil => exact absurd rfl hds
  | cons a t =>
    intro c hc
    rw [List.cons_append] at hc
    have hac : a = c := by simpa using hc
    subst hac
    exact hdig a (by simp)

theorem matches_parses (s : String) (h : matchesSignedDecimal s = true) :
    (jsParseFloat (stripWsCommas s)).isSome = true := by
  obtain ⟨sign, ds, rest, hcs, hds, hdig, hfrac⟩ := msd_decomp h
  have hdrop : ((stripWsCommas s).data).dropWhile Char.isWhitespace =
      s.data.filter (fun c => !strippedChar c) := by
    rw [show (stripWsCommas s).data =
      s.data.filter (fun c => !strippedChar c) from rfl]
    exact dropWhile_ws_filter _
  have key : ∀ body : List Char, body ≠ [] →
      (∀ c, body.head? = some c → c.isDigit = true) →
      (jpfBody sign body).isSome = true →
      s.data.filter (fun c => !strippedChar c) =
        (if sign then '-' :: body else body) →
      (jsParseFloat (stripWsCommas s)).isSome = true := by
    intro body h1 h2 h3 hfil
    unfold jsParseFloat
    rw [hdrop, hfil, jpfAux_signed sign body h1 h2]
    exact h3
  rcases matchFrac_cases hfrac with hrest | ⟨sep, fs, hrsteq, hsep, hfs, hfsdig⟩
  · -- no fractional part: the stripped body is the digit run itself
    subst hrest
    rw [List.append_nil] at hcs
    refine key ds hds ?_ ?_ ?_
    · have hap := head_append_digit ds [] hds hdig
      rwa [List.append_nil] at hap
    · have hsome := jpfBody_isSome sign ds [] hds hdig (Or.inl rfl)
      rwa [List.append_nil] at hsome
    · rw [hcs]
      cases sign
      · simp only [Bool.false_eq_true, if_false]
        exact filter_keep_of_digits ds hdig
      · rw [if_pos rfl, filter_keep_minus, filter_keep_of_digits ds hdig]
  · rcases hsep with rfl | rfl
    · -- '.' separator: it survives stripping, the body keeps its shape
      subst hrsteq
      refine key (ds ++ '.' :: fs) (by simp) (head_append_digit ds _ hds hdig)
        (jpfBody_isSome sign ds ('.' :: fs) hds hdig (Or.inr ⟨fs, rfl⟩)) ?_
      have hbody : (ds ++ '.' :: fs).filter (fun c => !strippedChar c) =
          ds ++ '.' :: fs := by
        rw [List.filter_append, filter_keep_of_digits ds hdig, filter_keep_dot,
          filter_keep_of_digits fs hfsdig]
      rw [hcs]
      cases sign
      · simpa using hbody
      · rw [if_pos rfl, filter_keep_minus, hbody]
    · -- ',' separator: stripping removes it, leaving one digit run
      subst hrsteq
      have hne2 : ds ++ fs ≠ [] := by
        intro hnil
        rcases List.append_eq_nil.mp hnil with ⟨h1, _⟩
        exact hds h1
      have hdigall : ∀ d ∈ ds ++ fs, d.isDigit = true := by
        intro d hd
        rcases List.mem_append.mp hd with h1 | h1
        · exact hdig d h1
        · exact hfsdig d h1
      have hsome : (jpfBody sign (ds ++ fs)).isSome = true := by
        have := jpfBody_isSome sign (ds ++ fs) [] hne2 hdigall (Or.inl rfl)
        rwa [List.append_nil] at this
      refine key (ds ++ fs) hne2 ?_ hsome ?_
      · intro c hc
        cases hb : ds with
        | nil => exact absurd hb hds
        | cons a t =>
          rw [hb, List.cons_append] at hc
          cases hc
          exact hdig c (by rw [hb]; simp)
      have hbody : (ds ++ ',' :: fs).filter (fun c => !strippedChar c) =
          ds ++ fs := by
        rw [List.filter_append, filter_keep_of_digits ds hdig, filter_keep_comma,
          filter_keep_of_digits fs hfsdig]
      rw [hcs]
      cases sign
      · simpa using hbody
      · rw [if_pos rfl, filter_keep_minus, hbody, if_pos rfl]

/-- C3 (amended): the default comparator returns equal when both
trimmed values are empty; an empty value sorts lower respecting the
direction sign; when both *trimmed* values fully match the
signed-decimal pattern — the regex is applied to the trimmed value,
not to the whitespace/comma-stripped one — the values parsed from the
*stripped* strings are compared numerically; otherwise the trimmed
values are compared as case-insensitive locale strings; the direction
is a multiplicative sign on the result.  In particular "9" sorts
before "10" ascending and "alice" before "Bob". -/
theorem defaultComparator_amended :
    ∀ (a b : String) (d : Int),
      (jsTrim a = "" ∧ jsTrim b = "" →
        defaultComparator a b d = Frac.ofInt 0) ∧
      (jsTrim a = "" ∧ jsTrim b ≠ "" →
        defaultComparator a b d = Frac.ofInt (-d)) ∧
      (jsTrim a ≠ "" ∧ jsTrim b = "" →
        defaultComparator a b d = Frac.ofInt d) ∧
      (jsTrim a ≠ "" ∧ jsTrim b ≠ "" ∧
          matchesSignedDecimal (jsTrim a) = true ∧
          matchesSignedDecimal (jsTrim b) = true →
        defaultComparator a b d =
          (((jsParseFloat (stripWsCommas (jsTrim a))).getD (Frac.ofInt 0)).sub
            ((jsParseFloat (stripWsCommas (jsTrim b))).getD
              (Frac.ofInt 0))).mulInt d) ∧
      (jsTrim a ≠ "" ∧ jsTrim b ≠ "" ∧
          ¬(matchesSignedDecimal (jsTrim a) = true ∧
            matchesSignedDecimal (jsTrim b) = true) →
        defaultComparator a b d =
          (Frac.ofInt (localeCompareBase (jsTrim a) (jsTrim b))).mulInt d) ∧
      defaultComparator "10" "9" 1 > Frac.ofInt 0 ∧
      defaultComparator "Bob" "alice" 1 > Frac.ofInt 0 := by
  intro a b d
  refine ⟨?_, ?_, ?_, ?_, ?_, by decide, by decide⟩
  · rintro ⟨h1, h2⟩
    simp only [defaultComparator]
    rw [if_pos ⟨h1, h2⟩]
  · rintro ⟨h1, h2⟩
    simp only [defaultComparator]
    rw [if_neg (fun hand => h2 hand.2), if_pos h1]
  · rintro ⟨h1, h2⟩
    simp only [defaultComparator]
    rw [if_neg (fun hand => h1 hand.1), if_neg h1, if_pos h2]
  · rintro ⟨h1, h2, m1, m2⟩
    have p1 := matches_parses (jsTrim a) m1
    have p2 := matches_parses (jsTrim b) m2
    simp only [defaultComparator]
    rw [if_neg (fun hand => h1 hand.1), if_neg h1, if_neg h2,
      if_pos (by rw [p1, p2, m1, m2]; rfl)]
  · rintro ⟨h1, h2, hm⟩
    simp only [defaultComparator]
    rw [if_neg (fun hand => h1 hand.1), if_neg h1, if_neg h2, if_neg (by
      intro hb
      rw [Bool.and_eq_true, Bool.and_eq_true, Bool.and_eq_true] at hb
      exact hm ⟨hb.1.2, hb.2⟩)]

theorem defaultComparator_amended_witness :
    defaultComparator "10" "9" 1 =
      (((jsParseFloat (stripWsCommas (jsTrim "10"))).getD (Frac.ofInt 0)).sub
        ((jsParseFloat (stripWsCommas (jsTrim "9"))).getD
          (Frac.ofInt 0))).mulInt 1 :=
  (defaultComparator_amended "10" "9" 1).2.2.2.1
    ⟨by decide, by decide, by decide, by decide⟩

/-- C3 counterexample: for the pair `("1 000", "2")` both values match
the signed-decimal pattern *after* stripping internal whitespace and
commas (the claim's premise), yet the comparator takes the
case-insensitive string branch and returns a negative result ascending
— numeric comparison of 1000 and 2 would be positive. -/
theorem comparator_regex_counterexample :
    matchesSignedDecimal (stripWsCommas (jsTrim "1 000")) = true ∧
      matchesSignedDecimal (stripWsCommas (jsTrim "2")) = true ∧
      defaultComparator "1 000" "2" 1 < Frac.ofInt 0 := by
  decide

theorem docCount_zero_of_all (st : EditState)
    (h : ∀ c ∈ st.controls, ¬(c.inDoc = true)) : docCount st = 0 := by
  unfold docCount
  rw [List.length_eq_zero]
  exact List.filter_eq_nil_iff.mpr h

theorem completeActive_none (st : EditState) (h : st.activeEditor = none) :
    completeActive st = st := by
  unfold completeActive
  rw [h]

theorem docCount_completeActive_zero (st : EditState)
    (hinv : EditInv st) (hc : Commits st) :
    docCount (completeActive st) = 0 := by
  cases hA : st.activeEditor with
  | none =>
    rw [completeActive_none st hA]
    apply docCount_zero_of_all
    intro c hcmem hdoc
    have hown := hinv c hcmem hdoc
    unfold activeOwns at hown
    rw [hA] at hown
    cases hown
  | some ed =>
    have hcm := hc ed hA
    cases ht : ed.target with
    | none =>
      rw [show completeEditor st ed =
        ({ st with notifications := st.notifications ++
            [⟨"Error", typeErrorFirstChild, "error"⟩] }, false) from by
          unfold completeEditor
          rw [ht]] at hcm
      cases hcm
    | some cid =>
      cases hf : findControl st cid with
      | none =>
        rw [show completeEditor st ed =
          ({ st with notifications := st.notifications ++
              [⟨"Error", typeErrorFirstChild, "error"⟩] }, false) from by
            simp only [completeEditor, ht, hf]] at hcm
        cases hcm
      | some ctrl =>
        simp only [completeEditor, ht, hf] at hcm
        split at hcm
        case isFalse => simp at hcm
        case isTrue hcond =>
          simp only [completeActive, hA, completeEditor, ht, hf]
          rw [if_pos hcond]
          apply docCount_zero_of_all
          intro c hcmem hdoc
          rcases List.mem_map.mp hcmem with ⟨c0, hc0mem, hc0eq⟩
          by_cases hid : c0.id = cid
          · rw [if_pos hid] at hc0eq
            rw [← hc0eq] at hdoc
            cases hdoc
          · rw [if_neg hid] at hc0eq
            subst hc0eq
            have hown := hinv c0 hc0mem hdoc
            simp only [activeOwns, hA, ht] at hown
            have hcid : cid = c0.id := by simpa using hown
            exact hid hcid.symm

theorem docCount_newInlineEditor (st : EditState) (i : Nat) :
    docCount (newInlineEditor st i).1 ≤ docCount st + 1 := by
  cases hc : st.cells.get? i with
  | none =>
    rw [show newInlineEditor st i = (st, ⟨none, none⟩) from by
      simp only [newInlineEditor, hc]]
    exact Nat.le_succ _
  | some cell =>
    cases hf : FIELDS.get? cell.colIdx with
    | none =>
      rw [show newInlineEditor st i = (st, ⟨none, none⟩) from by
        simp only [newInlineEditor, hc, hf]]
      exact Nat.le_succ _
    | some fs =>
      rw [show newInlineEditor st i =
        ({ st with
            cells := st.cells.set i { cell with hidden := true },
            controls := st.controls ++
              [⟨st.nextId, i, cell.text, fs.validator, true⟩],
            nextId := st.nextId + 1 }, ⟨some i, some st.nextId⟩) from by
        simp only [newInlineEditor, hc, hf]]
      unfold docCount
      rw [show ({ st with
        cells := st.cells.set i { cell with hidden := true },
        controls := st.controls ++ [⟨st.nextId, i, cell.text, fs.validator, true⟩],
        nextId := st.nextId + 1 } : EditState).controls =
          st.controls ++ [⟨st.nextId, i, cell.text, fs.validator, true⟩] from rfl]
      rw [List.filter_append, List.length_append]
      simp

/-- C1 (amended): a double-click always runs the active editor's
completion path before constructing the new editor; provided every
control in the document belongs to the active editor and that editor's
completion takes the commit path, completing leaves zero editor
controls in the document and the double-click leaves at most one — but
when a completion is *rejected* (validation failure) its control stays
open, so a rejected completion followed by a new open can leave two
controls in the document (see the counterexample). -/
theorem single_editor_amended :
    ∀ (st : EditState) (i : Nat),
      (st.activeEditor.isSome = true →
        dblclickStep st i =
          (let p := newInlineEditor (completeActive st) i
           { p.1 with activeEditor := some p.2 })) ∧
      (EditInv st → Commits st → docCount (completeActive st) = 0) ∧
      (EditInv st → Commits st → docCount (dblclickStep st i) ≤ 1) := by
  intro st i
  refine ⟨?_, fun hinv hc => docCount_completeActive_zero st hinv hc, ?_⟩
  · intro hsome
    cases hA : st.activeEditor with
    | none =>
      rw [hA] at hsome
      cases hsome
    | some ed => simp [dblclickStep, hA]
  · intro hinv hc
    have hzero := docCount_completeActive_zero st hinv hc
    unfold dblclickStep
    cases hA : st.activeEditor with
    | none =>
      have hz : docCount st = 0 := by
        rw [completeActive_none st hA] at hzero
        exact hzero
      show docCount { (newInlineEditor st i).1 with
        activeEditor := some (newInlineEditor st i).2 } ≤ 1
      have hb : docCount { (newInlineEditor st i).1 with
          activeEditor := some (newInlineEditor st i).2 } =
          docCount (newInlineEditor st i).1 := rfl
      rw [hb]
      have := docCount_newInlineEditor st i
      omega
    | some ed =>
      show docCount { (newInlineEditor (completeActive st) i).1 with
        activeEditor := some (newInlineEditor (completeActive st) i).2 } ≤ 1
      have hb : docCount { (newInlineEditor (completeActive st) i).1 with
          activeEditor := some (newInlineEditor (completeActive st) i).2 } =
          docCount (newInlineEditor (completeActive st) i).1 := rfl
      rw [hb]
      have := docCount_newInlineEditor (completeActive st) i
      omega

theorem single_editor_amended_witness :
    docCount (dblclickStep (dblclickStep editStateOk 0) 1) ≤ 1 := by
  have hinv : EditInv (dblclickStep editStateOk 0) := by
    unfold EditInv
    decide
  have hcom : Commits (dblclickStep editStateOk 0) := by
    intro ed hed
    rw [show (dblclickStep editStateOk 0).activeEditor =
      some ⟨some 0, some 0⟩ from rfl] at hed
    injection hed with h2
    subst h2
    decide
  exact (single_editor_amended (dblclickStep editStateOk 0) 1).2.2 hinv hcom

/-- C1 counterexample: on a row whose name cell "ab" fails the name
validator, double-clicking the name cell and then double-clicking the
position cell runs the first editor's completion (rejected), after
which the second editor still opens: two editor replacement controls
are in the document at once. -/
theorem editor_coexistence_counterexample :
    docCount (runEvents editStateBad [UiEvent.dbl 0, UiEvent.dbl 1]) = 2 := by
  decide

/-- C6: when the active editor's completion attempt fails validation,
the system stays in Editing with no state change — cells, controls
(the replacement control stays in the document) and the active-editor
slot are untouched — and the only effect is the failure notification;
the completion can therefore be re-attempted. -/
theorem inline_reject_keeps_state :
    ∀ (st : EditState) (ed : EditorObj) (cid : Nat) (ctrl : OpenControl)
      (rules : List Rule),
      st.activeEditor = some ed →
      ed.target = some cid →
      findControl st cid = some ctrl →
      ctrl.validator = some rules →
      (validate (some ctrl.value) rules).success = false →
      completeActive st =
        { st with notifications := st.notifications ++
            [⟨"Validation failed", (validate (some ctrl.value) rules).message,
              "error"⟩] } := by
  intro st ed cid ctrl rules h1 h2 h3 h4 h5
  have hce : completeEditor st ed =
      ({ st with notifications := st.notifications ++
          [⟨"Validation failed", (validate (some ctrl.value) rules).message,
            "error"⟩] }, false) := by
    simp only [completeEditor, h2, h3, h4, h5]
    rfl
  simp only [completeActive, h1, hce]
  rfl

theorem inline_reject_keeps_state_witness :
    completeActive (dblclickStep editStateBad 0) =
      { dblclickStep editStateBad 0 with notifications :=
          (dblclickStep editStateBad 0).notifications ++
            [⟨"Validation failed",
              (validate (some "ab") (minStrLenRules "name" 4)).message,
              "error"⟩] } :=
  inline_reject_keeps_state (dblclickStep editStateBad 0) ⟨some 0, some 0⟩ 0
    ⟨0, 0, "ab", some (minStrLenRules "name" 4), true⟩ (minStrLenRules "name" 4)
    rfl rfl rfl rfl (by decide)

/-- C2 (amended): double-clicking a cell whose cell index has no
`FIELDS` entry does not throw (the step is total), inserts no control,
changes no cell and pushes no notification — but the grid is *not*
left with a cleared active-editor slot: the handler stores the inert
editor object in `_activeEditor`, and a subsequent double-click
completes that inert editor, surfacing an `Error` notification. -/
theorem unknown_schema_noop_amended :
    ∀ (st : EditState) (i : Nat) (cell : Cell),
      st.cells.get? i = some cell →
      FIELDS.get? cell.colIdx = none →
      (st.activeEditor = none →
        dblclickStep st i = { st with activeEditor := some ⟨none, none⟩ }) ∧
      (st.activeEditor = some ⟨none, none⟩ →
        dblclickStep st i =
          { st with
              notifications := st.notifications ++
                [⟨"Error", typeErrorFirstChild, "error"⟩],
              activeEditor := some ⟨none, none⟩ }) := by
  intro st i cell h1 h2
  have hnew : newInlineEditor st i = (st, ⟨none, none⟩) := by
    simp only [newInlineEditor, h1, h2]
  constructor
  · intro h0
    simp only [dblclickStep, h0, hnew]
  · intro h0
    have hca : completeActive st =
        { st with notifications := st.notifications ++
            [⟨"Error", typeErrorFirstChild, "error"⟩] } := by
      have hce : completeEditor st (⟨none, none⟩ : EditorObj) =
          ({ st with notifications := st.notifications ++
              [⟨"Error", typeErrorFirstChild, "error"⟩] }, false) := rfl
      simp only [completeActive, h0, hce]
      rfl
    have hnew2 : newInlineEditor
        { st with notifications := st.notifications ++
            [⟨"Error", typeErrorFirstChild, "error"⟩] } i =
        ({ st with notifications := st.notifications ++
            [⟨"Error", typeErrorFirstChild, "error"⟩] }, ⟨none, none⟩) := by
      have hcells : ({ st with notifications := st.notifications ++
          [⟨"Error", typeErrorFirstChild, "error"⟩] } : EditState).cells.get? i =
          some cell := h1
      simp only [newInlineEditor, hcells, h2]
    rw [h0] at hca hnew2
    simp only [dblclickStep, h0, hca, hnew2]

theorem unknown_schema_noop_amended_witness :
    dblclickStep editStateMiss 0 =
      { editStateMiss with activeEditor := some ⟨none, none⟩ } :=
  (unknown_schema_noop_amended editStateMiss 0 ⟨5, "x", false⟩ rfl rfl).1 rfl

/-- C2 counterexample: double-clicking the cell of `editStateMiss`
(cell index 5, beyond the five schema entries) leaves the grid with a
*non-empty* active-editor slot — the inert editor object — refuting
"the grid is left in the Idle state (no active editor)". -/
theorem unknown_schema_counterexample :
    (dblclickStep editStateMiss 0).activeEditor.isSome = true := by
  decide
